import Mathlib

/-
  Verification development for the fractary plugins conversion scripts.

  The two source files are modelled shallowly:
  - src/convert-to-markdown-format.py : parse_embedded_skill_md,
    convert_tool_yaml_to_md, convert_agent_yaml_to_md, main
  - src/embed-system-prompts.py : embed_system_prompt, main

  Text is modelled as List Char. Python str.strip, str.split with
  maxsplit, str.replace, str.title and substring containment are given
  explicit executable models. YAML records are modelled as ordered
  association lists from key to value; yaml.safe_load of a frontmatter
  segment is an abstract parameter (a function returning Option Fields,
  none standing for a parse failure or a non-mapping result).
-/

abbrev Str := List Char

def chars (s : String) : Str := s.data

/-- Python whitespace set of str.strip: space, tab, newline, carriage
return, vertical tab, form feed. -/
def isPySpace (c : Char) : Bool :=
  c == ' ' || c == '\t' || c == '\n' || c == '\r' ||
  c == Char.ofNat 11 || c == Char.ofNat 12

/-- Model of Python str.strip: drop whitespace from both ends. -/
def pyStrip (l : Str) : Str :=
  ((l.dropWhile isPySpace).reverse.dropWhile isPySpace).reverse

/-- The frontmatter delimiter of the scripts, three dashes. -/
def threeDash : Str := ['-', '-', '-']

/-- Model of Python substring containment, sub in l. -/
def hasSub (sub : Str) : Str → Bool
  | [] => sub.isEmpty
  | c :: rest =>
    if List.take sub.length (c :: rest) = sub then true else hasSub sub rest

/-- Model of Python content.split with separator three dashes and a
maxsplit bound n: scan left to right, splitting at most n times; once
the bound is exhausted the remainder is kept whole. acc accumulates the
current segment in reverse. The first argument is fuel bounding the
scan so the recursion is structural; with fuel at least the length of
the scanned text the zero-fuel arm is never reached (shown by
splitDashGo_fuel below). -/
def splitDashGo : Nat → Nat → Str → Str → List Str
  | 0, _, acc, l => [acc.reverse ++ l]
  | _ + 1, _, acc, [] => [acc.reverse]
  | fuel + 1, n, acc, c :: rest =>
    if 0 < n ∧ List.take 3 (c :: rest) = threeDash then
      acc.reverse :: splitDashGo fuel (n - 1) [] (List.drop 2 rest)
    else
      splitDashGo fuel n (c :: acc) rest

def splitDash (n : Nat) (acc : Str) (l : Str) : List Str :=
  splitDashGo l.length n acc l

theorem splitDashGo_fuel (fuel1 : Nat) : ∀ (fuel2 n : Nat) (acc l : Str),
    l.length ≤ fuel1 → l.length ≤ fuel2 →
    splitDashGo fuel1 n acc l = splitDashGo fuel2 n acc l := by
  induction fuel1 with
  | zero =>
    intro fuel2 n acc l h1 h2
    have hl : l = [] := by
      cases l with
      | nil => rfl
      | cons c t => simp at h1
    subst hl
    cases fuel2 with
    | zero => rfl
    | succ f => simp [splitDashGo]
  | succ f ih =>
    intro fuel2 n acc l h1 h2
    cases l with
    | nil =>
      cases fuel2 with
      | zero => simp [splitDashGo]
      | succ g => rfl
    | cons c rest =>
      cases fuel2 with
      | zero => simp at h2
      | succ g =>
        rw [splitDashGo, splitDashGo]
        by_cases hc : 0 < n ∧ List.take 3 (c :: rest) = threeDash
        · rw [if_pos hc, if_pos hc]
          rw [ih g (n - 1) [] (List.drop 2 rest)
            (by simp at h1 ⊢; omega) (by simp at h2 ⊢; omega)]
        · rw [if_neg hc, if_neg hc]
          exact ih g n (c :: acc) rest (by simp at h1; omega) (by simp at h2; omega)

/-- Model of Python replace of dash by space on a one character
separator. -/
def dashToSpace (l : Str) : Str := l.map (fun c => if c = '-' then ' ' else c)

/-- Model of Python str.title: an alphabetic character is uppercased
when the previous character is not alphabetic, lowercased otherwise. -/
def pyTitleGo : Bool → Str → Str
  | _, [] => []
  | prev, c :: rest =>
    (if c.isAlpha then (if prev then c.toLower else c.toUpper) else c) ::
      pyTitleGo c.isAlpha rest

def pyTitle (l : Str) : Str := pyTitleGo false l

/-- Values of the YAML data model as loaded by yaml.safe_load: scalar
strings, mappings, sequences. -/
inductive Val where
  | s (v : Str)
  | dict (l : List (Str × Val))
  | arr (l : List Val)

abbrev Fields := List (Str × Val)

/-- Python dict lookup, first matching key. -/
def getF : Fields → Str → Option Val
  | [], _ => none
  | (k0, v) :: rest, k => if k0 = k then some v else getF rest k

/-- Python dict item assignment: replace in place when the key is
present, append otherwise. -/
def setF : Fields → Str → Val → Fields
  | [], k, v => [(k, v)]
  | (k0, v0) :: rest, k, v =>
    if k0 = k then (k, v) :: rest else (k0, v0) :: setF rest k v

/-- Python dict pop of a key: remove its binding. -/
def eraseF : Fields → Str → Fields
  | [], _ => []
  | (k0, v0) :: rest, k =>
    if k0 = k then eraseF rest k else (k0, v0) :: eraseF rest k

def quoteCh : Char := Char.ofNat 39
def braceL : Char := Char.ofNat 123
def braceR : Char := Char.ofNat 125

/- Model of Python repr for yaml-loaded values as used by str() on
dicts and lists: single quoted strings, brace enclosed mappings,
bracket enclosed sequences. Escaping inside string repr is not
modelled; no input considered here contains quotes. -/
mutual
def pyRepr : Val → Str
  | Val.s v => quoteCh :: (v ++ [quoteCh])
  | Val.dict l => braceL :: (pyReprDict l ++ [braceR])
  | Val.arr l => '[' :: (pyReprArr l ++ [']'])

def pyReprDict : List (Str × Val) → Str
  | [] => []
  | [(k, v)] => (quoteCh :: (k ++ [quoteCh])) ++ ':' :: ' ' :: pyRepr v
  | (k, v) :: rest =>
    ((quoteCh :: (k ++ [quoteCh])) ++ ':' :: ' ' :: pyRepr v) ++
      ',' :: ' ' :: pyReprDict rest

def pyReprArr : List Val → Str
  | [] => []
  | [v] => pyRepr v
  | v :: rest => pyRepr v ++ ',' :: ' ' :: pyReprArr rest
end

/-- Model of Python str() on a yaml-loaded value: a string is itself,
anything else is its repr. -/
def pyStr : Val → Str
  | Val.s v => v
  | Val.dict l => pyRepr (Val.dict l)
  | Val.arr l => pyRepr (Val.arr l)

/-
  Keys used by the scripts.
-/

def spKey : Str := chars "system_prompt"
def nameKey : Str := chars "name"
def typeKey : Str := chars "type"
def descKey : Str := chars "description"
def verKey : Str := chars "version"
def tagsKey : Str := chars "tags"
def schemaKey : Str := chars "input_schema"
def implKey : Str := chars "implementation"
def llmKey : Str := chars "llm"
def modelKey : Str := chars "model"

/-
  parse_embedded_skill_md from src/convert-to-markdown-format.py,
  lines 20 to 47. The yaml.safe_load of the frontmatter segment is the
  abstract parameter p; a parse failure, a null result or a non-mapping
  result is none, defaulted to the empty mapping as by the source
  (yaml.safe_load(...) or left-brace right-brace, and the except arm).
  The startswith check of the source is written as a take of three
  characters compared with the delimiter.
-/
def parse_embedded_skill_md (p : Str → Option Fields) (content : Str) :
    Fields × Str :=
  if List.take 3 (pyStrip content) = threeDash then
    let parts := splitDash 2 [] content
    if parts.length < 3 then ([], pyStrip content)
    else ((p (pyStrip (parts.getD 1 []))).getD [], pyStrip (parts.getD 2 []))
  else ([], pyStrip content)

/-
  convert_tool_yaml_to_md from src/convert-to-markdown-format.py,
  lines 50 to 132. The pure transform (after the file read, before the
  file write) is convert_tool_core; a raised Python exception
  (attribute or type error on a value of the wrong shape) is an
  Except.error. tool_name is the containing directory name.
-/

/-- Placeholder body of the branch without system_prompt, line 81. -/
def toolNoSpBody (nm : Str) : Str :=
  chars "# " ++ pyTitle (dashToSpace nm) ++
    chars "\n\nUtility tool with no system prompt."

/-- Placeholder body for an empty split skill body, line 119, and for
an empty agent system prompt, line 168. -/
def noContentBody (nm : Str) : Str :=
  chars "# " ++ pyTitle (dashToSpace nm) ++ chars "\n\n(No content)"

/-- Python truthiness of a yaml value: empty string, empty dict and
empty list are falsy. -/
def vTruthy : Val → Bool
  | Val.s v => !v.isEmpty
  | Val.dict l => !l.isEmpty
  | Val.arr l => !l.isEmpty

/-- Line 75 and line 77: tool_data.get of system_prompt with default
empty string, then the falsy test. A truthy non-string value would hit
content.strip() inside parse_embedded_skill_md and raise. -/
def spTruthy : Option Val → Except Str (Option Str)
  | none => Except.ok none
  | some (Val.s v) => Except.ok (if v = [] then none else some v)
  | some (Val.dict l) =>
    match l with
    | [] => Except.ok none
    | _ => Except.error (chars "AttributeError")
  | some (Val.arr l) =>
    match l with
    | [] => Except.ok none
    | _ => Except.error (chars "AttributeError")

/-- Line 80: the dict comprehension dropping system_prompt. -/
def filterSp (td : Fields) : Fields :=
  List.filter (fun kv => decide (kv.1 ≠ spKey)) td

/-- Lines 87 to 92: the base output frontmatter, in construction
order. -/
def fm0Of (tool_name : Str) (td skill_fm : Fields) : Fields :=
  [(nameKey, (getF td nameKey).getD (Val.s tool_name)),
   (typeKey, Val.s (chars "tool")),
   (descKey, (getF td descKey).getD ((getF skill_fm descKey).getD (Val.s []))),
   (verKey, (getF td verKey).getD (Val.s (chars "1.0.0")))]

/-- Lines 94 to 98: tags from the record, else from the skill
frontmatter. -/
def fm1Of (td skill_fm fm : Fields) : Fields :=
  match getF td tagsKey with
  | some t => setF fm tagsKey t
  | none =>
    match getF skill_fm tagsKey with
    | some t => setF fm tagsKey t
    | none => fm

/-- Lines 100 to 102: parameters from input_schema. -/
def fm2Of (td : Fields) (fm : Fields) : Fields :=
  match getF td schemaKey with
  | some v => setF fm (chars "parameters") v
  | none => fm

/-- Lines 104 to 110: the implementation cleanup. impl.get of type on
a non-dict raises. When the type field equals embedded it is rewritten
to bash in place. -/
def implAdj : Option Val → Except Str (Option Val)
  | none => Except.ok none
  | some (Val.dict d) =>
    Except.ok (some (Val.dict
      (match getF d typeKey with
       | some (Val.s t) =>
         if t = chars "embedded" then setF d typeKey (Val.s (chars "bash")) else d
       | _ => d)))
  | some _ => Except.error (chars "AttributeError")

/-- Line 105 and line 110: conditionally add the implementation. -/
def fm3Of (implOpt : Option Val) (fm : Fields) : Fields :=
  match implOpt with
  | some impl => setF fm implKey impl
  | none => fm

/-- Line 116: the nested item assignment frontmatter of llm of model.
Item assignment on a non-dict llm value would raise. -/
def llmAddCore (fmA : Fields) (m : Val) : Except Str Fields :=
  match getF fmA llmKey with
  | some (Val.dict d) => Except.ok (setF fmA llmKey (Val.dict (setF d modelKey m)))
  | _ => Except.error (chars "TypeError")

/-- Lines 112 to 116: copy a model preference of the skill frontmatter
into a nested llm mapping, creating an empty llm mapping first when the
key is absent. -/
def llmAdd (skill_fm fm : Fields) : Except Str Fields :=
  match getF skill_fm modelKey with
  | none => Except.ok fm
  | some m =>
    match getF fm llmKey with
    | none => llmAddCore (setF fm llmKey (Val.dict [])) m
    | some _ => llmAddCore fm m

/-- Lines 87 to 116, the whole output frontmatter of the branch with a
system prompt. -/
def buildToolFM (tool_name : Str) (td skill_fm : Fields) : Except Str Fields :=
  match implAdj (getF td implKey) with
  | Except.error e => Except.error e
  | Except.ok implOpt =>
    llmAdd skill_fm (fm3Of implOpt (fm2Of td (fm1Of td skill_fm (fm0Of tool_name td skill_fm))))

/-- Lines 63 to 119 of convert_tool_yaml_to_md: the transform from the
loaded record to the output frontmatter and body. -/
def convert_tool_core (p : Str → Option Fields) (tool_name : Str)
    (td : Fields) : Except Str (Fields × Str) :=
  match spTruthy (getF td spKey) with
  | Except.error e => Except.error e
  | Except.ok none =>
    match getF td nameKey with
    | none => Except.ok (filterSp td, toolNoSpBody tool_name)
    | some (Val.s nm) => Except.ok (filterSp td, toolNoSpBody nm)
    | some _ => Except.error (chars "AttributeError")
  | Except.ok (some sp) =>
    let sf := parse_embedded_skill_md p sp
    match buildToolFM tool_name td sf.1 with
    | Except.error e => Except.error e
    | Except.ok fm =>
      Except.ok (fm, if sf.2 = [] then noContentBody tool_name else sf.2)

/-
  convert_agent_yaml_to_md from src/convert-to-markdown-format.py,
  lines 135 to 181: pop system_prompt, keep the remaining fields, fill
  type and version only when absent, body is the system prompt when
  truthy, else the placeholder. The body keeps its yaml value type: a
  truthy non-string system prompt is passed to f.write unchanged (and
  would fail there, inside the write try).
-/
/-- Lines 162 to 163: fill type only when absent. -/
def agentFM1 (fm0 : Fields) : Fields :=
  match getF fm0 typeKey with
  | none => setF fm0 typeKey (Val.s (chars "agent"))
  | some _ => fm0

/-- Lines 164 to 165: fill version only when absent. -/
def agentFM2 (fm1 : Fields) : Fields :=
  match getF fm1 verKey with
  | none => setF fm1 verKey (Val.s (chars "1.0.0"))
  | some _ => fm1

/-- Line 168: the body is the popped system prompt when truthy, else
the placeholder. -/
def agentBody (agent_name : Str) (spOpt : Option Val) : Val :=
  match spOpt with
  | some v => if vTruthy v then v else Val.s (noContentBody agent_name)
  | none => Val.s (noContentBody agent_name)

def convert_agent_core (agent_name : Str) (d : Fields) : Fields × Val :=
  (agentFM2 (agentFM1 (eraseF d spKey)), agentBody agent_name (getF d spKey))

/-
  The write of both converters, lines 122 to 128 and 171 to 177:
  delimiter line, the yaml.dump output of the frontmatter (given here
  as an already serialized block), delimiter line, blank line, body,
  trailing newline.
-/
def writeDoc (dumped body : Str) : Str :=
  threeDash ++ ('\n' :: dumped) ++ threeDash ++ ('\n' :: '\n' :: body) ++ ['\n']

/-
  embed_system_prompt from src/embed-system-prompts.py, lines 11 to
  39: skip when an implementation field is present whose str() form
  does not contain the skill_directory marker; otherwise set
  system_prompt to the full raw skill text and overwrite
  implementation with the fixed embedded marker mapping.
-/

inductive EmbedResult where
  | updated (r : Fields)
  | skipped (msg : Str)

def embeddedImplVal : Val :=
  Val.dict [(typeKey, Val.s (chars "embedded")),
            (chars "scripts_directory", Val.s (chars "scripts"))]

def embed_system_prompt (skill_content : Str) (td : Fields) : EmbedResult :=
  let proceed :=
    EmbedResult.updated
      (setF (setF td spKey (Val.s skill_content)) implKey embeddedImplVal)
  match getF td implKey with
  | some impl =>
    if hasSub (chars "skill_directory") (pyStr impl) then proceed
    else EmbedResult.skipped (chars "No skill_directory reference")
  | none => proceed

/-
  The batch drivers. A call of an item level function either returns a
  pair of success flag and message, or raises.
-/

inductive CallResult where
  | ret (ok : Bool) (msg : Str)
  | exn (msg : Str)

/-- Outcome of reading and yaml-loading an input file: an IO failure,
or a loaded value (which need not be a mapping). -/
inductive ReadOutcome where
  | ioError
  | value (v : Val)

/-- convert_tool_yaml_to_md, lines 50 to 132, as called by main: a
read failure is caught and returned as a failure pair (line 71); a
loaded non-mapping raises at tool_data.get, line 75, outside any try;
a write failure is caught and returned as a failure pair (line 131). -/
def convert_tool_yaml_to_md (p : Str → Option Fields) (tool_name : Str)
    (r : ReadOutcome) (writeOk : Bool) : CallResult :=
  match r with
  | ReadOutcome.ioError => CallResult.ret false (chars "Failed to read YAML")
  | ReadOutcome.value (Val.dict d) =>
    match convert_tool_core p tool_name d with
    | Except.error e => CallResult.exn e
    | Except.ok _ =>
      if writeOk then CallResult.ret true (chars "Converted to tool.md")
      else CallResult.ret false (chars "Failed to write MD")
  | ReadOutcome.value _ => CallResult.exn (chars "AttributeError")

/-- The tool and agent loops of main in convert-to-markdown-format.py,
lines 197 to 223: each converter call sits in the loop with no
enclosing try, so a raised exception propagates and aborts the batch
(result none); a returned pair is counted as converted or errored and
the loop continues. -/
def convertLoop : List CallResult → Option (Nat × Nat)
  | [] => some (0, 0)
  | CallResult.exn _ :: _ => none
  | CallResult.ret true _ :: rest =>
    Option.map (fun ce => (ce.1 + 1, ce.2)) (convertLoop rest)
  | CallResult.ret false _ :: rest =>
    Option.map (fun ce => (ce.1, ce.2 + 1)) (convertLoop rest)

/-- The loop of main in embed-system-prompts.py, lines 58 to 85: the
embed call is wrapped in try, so a raised exception is counted as an
error and the loop continues; a False return is counted as a skip.
Counts are updated, skipped, errors. -/
def embedLoop : List CallResult → Nat × Nat × Nat
  | [] => (0, 0, 0)
  | CallResult.ret true _ :: rest =>
    let r := embedLoop rest; (r.1 + 1, r.2.1, r.2.2)
  | CallResult.ret false _ :: rest =>
    let r := embedLoop rest; (r.1, r.2.1 + 1, r.2.2)
  | CallResult.exn _ :: rest =>
    let r := embedLoop rest; (r.1, r.2.1, r.2.2 + 1)

/-- An embed item as seen by its driver loop, lines 75 to 82. -/
def embed_item_step (skill_content : Str) (td : Fields) : CallResult :=
  match embed_system_prompt skill_content td with
  | EmbedResult.updated _ => CallResult.ret true (chars "Updated")
  | EmbedResult.skipped m => CallResult.ret false m

/-
  Concrete parsers used by witnesses and counterexamples.
-/

/-- A field parser that always fails. -/
def pFail : Str → Option Fields := fun _ => none

/-- A field parser for one concrete skill frontmatter segment. -/
def pSk : Str → Option Fields := fun s =>
  if s = chars "name: sk" then some [(nameKey, Val.s (chars "sk"))] else none

/-- A field parser inverting one concrete dumped agent frontmatter. -/
def pInv : Str → Option Fields := fun s =>
  if s = chars "type: agent\nversion: 1.0.0" then
    some [(typeKey, Val.s (chars "agent")), (verKey, Val.s (chars "1.0.0"))]
  else none

/-
  Helper lemmas about the dict operations.
-/

theorem getF_setF_self (l : Fields) (k : Str) (v : Val) :
    getF (setF l k v) k = some v := by
  induction l with
  | nil => simp [setF, getF]
  | cons kv t ih =>
    obtain ⟨k0, v0⟩ := kv
    by_cases hk : k0 = k
    · simp [setF, hk, getF]
    · simp [setF, hk, getF, ih]

theorem getF_setF_ne (l : Fields) (kSet k : Str) (v : Val) (h : kSet ≠ k) :
    getF (setF l kSet v) k = getF l k := by
  induction l with
  | nil => simp [setF, getF, h]
  | cons kv t ih =>
    obtain ⟨k0, v0⟩ := kv
    by_cases hk : k0 = kSet
    · subst hk
      simp [setF, getF, h]
    · simp [setF, hk, getF, ih]

theorem getF_eraseF_self (l : Fields) (k : Str) :
    getF (eraseF l k) k = none := by
  induction l with
  | nil => simp [eraseF, getF]
  | cons kv t ih =>
    obtain ⟨k0, v0⟩ := kv
    by_cases hk : k0 = k
    · simp [eraseF, hk, ih]
    · simp [eraseF, hk, getF, ih]

theorem getF_eraseF_ne (l : Fields) (kDel k : Str) (h : kDel ≠ k) :
    getF (eraseF l kDel) k = getF l k := by
  induction l with
  | nil => simp [eraseF, getF]
  | cons kv t ih =>
    obtain ⟨k0, v0⟩ := kv
    by_cases hk : k0 = kDel
    · subst hk
      simp [eraseF, getF, h, ih]
    · simp [eraseF, hk, getF, ih]

theorem filterSp_of_none (l : Fields) (h : getF l spKey = none) :
    filterSp l = l := by
  induction l with
  | nil => rfl
  | cons kv t ih =>
    obtain ⟨k0, v0⟩ := kv
    by_cases hk : k0 = spKey
    · rw [getF, if_pos hk] at h
      exact absurd h (by simp)
    · rw [getF, if_neg hk] at h
      unfold filterSp at ih ⊢
      rw [List.filter_cons, if_pos (decide_eq_true hk)]
      rw [ih h]

/-
  Helper lemmas about the text primitives.
-/

theorem dropWhileAppend (p : Char → Bool) (a b : Str) :
    List.dropWhile p (a ++ b) =
      if (List.dropWhile p a).isEmpty then List.dropWhile p b
      else List.dropWhile p a ++ b := by
  induction a with
  | nil => simp
  | cons c t ih =>
    by_cases hc : p c
    · simp [List.dropWhile_cons, hc, ih]
    · simp [List.dropWhile_cons, hc]

theorem splitDashGo_zero (fuel : Nat) : ∀ (l acc : Str), l.length ≤ fuel →
    splitDashGo fuel 0 acc l = [acc.reverse ++ l] := by
  induction fuel with
  | zero =>
    intro l acc _
    rfl
  | succ f ih =>
    intro l acc h
    cases l with
    | nil => simp [splitDashGo]
    | cons c rest =>
      rw [splitDashGo, if_neg (by simp)]
      rw [ih rest (c :: acc) (by simp at h; omega)]
      simp

theorem splitDash_zero (l : Str) : ∀ acc, splitDash 0 acc l = [acc.reverse ++ l] := by
  intro acc
  exact splitDashGo_zero l.length l acc (le_refl _)

theorem splitDashGo_chunk (A : Str) : ∀ (fuel n : Nat) (B acc : Str),
    (A ++ (threeDash ++ B)).length ≤ fuel →
    hasSub threeDash (A ++ ['-', '-']) = false →
    splitDashGo fuel (n + 1) acc (A ++ (threeDash ++ B)) =
      (acc.reverse ++ A) :: splitDash n [] B := by
  induction A with
  | nil =>
    intro fuel n B acc hf _
    simp only [List.nil_append] at hf ⊢
    cases fuel with
    | zero => simp [threeDash] at hf
    | succ f =>
      have hb : B.length ≤ f := by
        simp [threeDash] at hf
        omega
      rw [show threeDash ++ B = '-' :: '-' :: '-' :: B from by simp [threeDash]]
      rw [splitDashGo]
      rw [if_pos ⟨Nat.succ_pos n, by simp [threeDash]⟩]
      simp only [List.drop_succ_cons, List.drop_zero, Nat.add_sub_cancel]
      rw [splitDash]
      rw [splitDashGo_fuel f B.length n [] B hb (le_refl _)]
      simp
  | cons c A' ih =>
    intro fuel n B acc hf hno
    rw [List.cons_append] at hno
    rw [hasSub] at hno
    by_cases htk : List.take threeDash.length (c :: (A' ++ ['-', '-'])) = threeDash
    · rw [if_pos htk] at hno
      exact absurd hno (by simp)
    · rw [if_neg htk] at hno
      have hlen : 3 ≤ (c :: (A' ++ ['-', '-'])).length := by
        simp
      have htk3 : List.take 3 (c :: (A' ++ (threeDash ++ B))) ≠ threeDash := by
        have heq : List.take 3 (c :: (A' ++ (threeDash ++ B))) =
            List.take 3 (c :: (A' ++ ['-', '-'])) := by
          rw [show c :: (A' ++ (threeDash ++ B)) =
              (c :: (A' ++ ['-', '-'])) ++ ('-' :: B) from by simp [threeDash]]
          rw [List.take_append_of_le_length hlen]
        rw [heq]
        simpa [threeDash] using htk
      cases fuel with
      | zero => simp at hf
      | succ f =>
        rw [List.cons_append]
        rw [splitDashGo]
        rw [if_neg (by
          intro hcond
          exact htk3 hcond.2)]
        rw [ih f n B (c :: acc) (by simp at hf ⊢; omega) hno]
        simp

theorem splitDash_chunk (n : Nat) (A B acc : Str)
    (hno : hasSub threeDash (A ++ ['-', '-']) = false) :
    splitDash (n + 1) acc (A ++ (threeDash ++ B)) =
      (acc.reverse ++ A) :: splitDash n [] B := by
  rw [splitDash]
  exact splitDashGo_chunk A _ n B acc (le_refl _) hno

theorem pyStrip_nl (l : Str) : pyStrip ('\n' :: l) = pyStrip l := by
  have h : isPySpace '\n' = true := by decide
  simp [pyStrip, List.dropWhile_cons, h]

theorem take3_pyStrip_dash (l : Str) :
    List.take 3 (pyStrip (threeDash ++ l)) = threeDash := by
  have hd : isPySpace '-' = false := by decide
  have h1 : List.dropWhile isPySpace (threeDash ++ l) = threeDash ++ l := by
    simp [threeDash, List.dropWhile_cons, hd]
  have hrev : threeDash.reverse = threeDash := by decide
  rw [pyStrip, h1, List.reverse_append, hrev, dropWhileAppend]
  by_cases he : (List.dropWhile isPySpace l.reverse).isEmpty
  · rw [if_pos he]
    decide
  · rw [if_neg he]
    rw [List.reverse_append, hrev]
    rw [List.take_append_of_le_length (by simp [threeDash])]
    decide

theorem strip_padded (B : Str) (hB1 : List.dropWhile isPySpace B = B)
    (hB2 : List.dropWhile isPySpace B.reverse = B.reverse) :
    pyStrip ('\n' :: '\n' :: (B ++ ['\n'])) = B := by
  by_cases hBe : B = []
  · subst hBe
    decide
  · have hnl : isPySpace '\n' = true := by decide
    have h1 : List.dropWhile isPySpace ('\n' :: '\n' :: (B ++ ['\n'])) =
        List.dropWhile isPySpace (B ++ ['\n']) := by
      rw [List.dropWhile_cons, List.dropWhile_cons]
      simp [hnl]
    have h2 : List.dropWhile isPySpace (B ++ ['\n']) = B ++ ['\n'] := by
      rw [dropWhileAppend, hB1]
      rw [if_neg (by simpa [List.isEmpty_iff] using hBe)]
    rw [pyStrip, h1, h2, List.reverse_append]
    simp only [List.reverse_cons, List.reverse_nil, List.nil_append,
      List.singleton_append]
    rw [List.dropWhile_cons]
    simp [hnl, hB2]

/-
  Key disequalities used throughout.
-/

theorem neNT : nameKey ≠ typeKey := by decide
theorem neND : nameKey ≠ descKey := by decide
theorem neNV : nameKey ≠ verKey := by decide
theorem neTD : typeKey ≠ descKey := by decide
theorem neTV : typeKey ≠ verKey := by decide
theorem neDV : descKey ≠ verKey := by decide

/-
  The base frontmatter of the tool converter.
-/

theorem fm0_name (nm : Str) (td sfm : Fields) :
    getF (fm0Of nm td sfm) nameKey = some ((getF td nameKey).getD (Val.s nm)) := by
  simp [fm0Of, getF]

theorem fm0_type (nm : Str) (td sfm : Fields) :
    getF (fm0Of nm td sfm) typeKey = some (Val.s (chars "tool")) := by
  simp [fm0Of, getF, neNT]

theorem fm0_desc (nm : Str) (td sfm : Fields) :
    getF (fm0Of nm td sfm) descKey =
      some ((getF td descKey).getD ((getF sfm descKey).getD (Val.s []))) := by
  simp [fm0Of, getF, neND, neTD]

theorem fm0_ver (nm : Str) (td sfm : Fields) :
    getF (fm0Of nm td sfm) verKey =
      some ((getF td verKey).getD (Val.s (chars "1.0.0"))) := by
  simp [fm0Of, getF, neNV, neTV, neDV]

/-
  The later pipeline stages do not touch the base keys.
-/

theorem fm1_get (td sfm fm : Fields) (q : Str) (h : q ≠ tagsKey) :
    getF (fm1Of td sfm fm) q = getF fm q := by
  unfold fm1Of
  split
  · exact getF_setF_ne fm tagsKey q _ (Ne.symm h)
  · split
    · exact getF_setF_ne fm tagsKey q _ (Ne.symm h)
    · rfl

theorem fm2_get (td fm : Fields) (q : Str) (h : q ≠ chars "parameters") :
    getF (fm2Of td fm) q = getF fm q := by
  unfold fm2Of
  split
  · exact getF_setF_ne fm (chars "parameters") q _ (Ne.symm h)
  · rfl

theorem fm3_get (implOpt : Option Val) (fm : Fields) (q : Str) (h : q ≠ implKey) :
    getF (fm3Of implOpt fm) q = getF fm q := by
  unfold fm3Of
  split
  · exact getF_setF_ne fm implKey q _ (Ne.symm h)
  · rfl

theorem llmAddCore_get (fmA : Fields) (m : Val) (fm4 : Fields) (q : Str)
    (hq : q ≠ llmKey) (h : llmAddCore fmA m = Except.ok fm4) :
    getF fm4 q = getF fmA q := by
  unfold llmAddCore at h
  split at h
  · cases h
    exact getF_setF_ne fmA llmKey q _ (Ne.symm hq)
  · exact absurd h (by simp)

theorem llmAdd_get (sfm fm fm4 : Fields) (q : Str) (hq : q ≠ llmKey)
    (h : llmAdd sfm fm = Except.ok fm4) : getF fm4 q = getF fm q := by
  unfold llmAdd at h
  split at h
  · cases h
    rfl
  · split at h
    · rw [llmAddCore_get _ _ _ _ hq h]
      exact getF_setF_ne fm llmKey q _ (Ne.symm hq)
    · exact llmAddCore_get _ _ _ _ hq h

theorem buildToolFM_get (nm : Str) (td sfm fm : Fields) (q : Str)
    (h1 : q ≠ tagsKey) (h2 : q ≠ chars "parameters") (h3 : q ≠ implKey)
    (h4 : q ≠ llmKey) (h : buildToolFM nm td sfm = Except.ok fm) :
    getF fm q = getF (fm0Of nm td sfm) q := by
  unfold buildToolFM at h
  split at h
  · exact absurd h (by simp)
  · rw [llmAdd_get _ _ _ _ h4 h, fm3_get _ _ _ h3, fm2_get _ _ _ h2,
      fm1_get _ _ _ _ h1]

theorem buildToolFM_base (nm : Str) (td sfm fm : Fields)
    (h : buildToolFM nm td sfm = Except.ok fm) :
    getF fm nameKey = some ((getF td nameKey).getD (Val.s nm)) ∧
    getF fm typeKey = some (Val.s (chars "tool")) ∧
    getF fm descKey =
      some ((getF td descKey).getD ((getF sfm descKey).getD (Val.s []))) ∧
    getF fm verKey = some ((getF td verKey).getD (Val.s (chars "1.0.0"))) := by
  refine ⟨?_, ?_, ?_, ?_⟩
  · rw [buildToolFM_get nm td sfm fm nameKey (by decide) (by decide) (by decide)
      (by decide) h]
    exact fm0_name nm td sfm
  · rw [buildToolFM_get nm td sfm fm typeKey (by decide) (by decide) (by decide)
      (by decide) h]
    exact fm0_type nm td sfm
  · rw [buildToolFM_get nm td sfm fm descKey (by decide) (by decide) (by decide)
      (by decide) h]
    exact fm0_desc nm td sfm
  · rw [buildToolFM_get nm td sfm fm verKey (by decide) (by decide) (by decide)
      (by decide) h]
    exact fm0_ver nm td sfm

/-
  Reduction of convert_tool_core on the two branches.
-/

theorem core_no_sp (p : Str → Option Fields) (nm : Str) (td : Fields)
    (hsp : getF td spKey = none) :
    convert_tool_core p nm td =
      match getF td nameKey with
      | none => Except.ok (filterSp td, toolNoSpBody nm)
      | some (Val.s n0) => Except.ok (filterSp td, toolNoSpBody n0)
      | some _ => Except.error (chars "AttributeError") := by
  unfold convert_tool_core
  rw [hsp]
  rfl

theorem core_sp (p : Str → Option Fields) (nm : Str) (td : Fields) (s : Str)
    (hsp : getF td spKey = some (Val.s s)) (hs : s ≠ []) :
    convert_tool_core p nm td =
      match buildToolFM nm td (parse_embedded_skill_md p s).1 with
      | Except.error e => Except.error e
      | Except.ok fm =>
        Except.ok (fm,
          if (parse_embedded_skill_md p s).2 = [] then noContentBody nm
          else (parse_embedded_skill_md p s).2) := by
  unfold convert_tool_core
  rw [hsp]
  simp [spTruthy, hs]

/-
  More helper lemmas: placeholders are never empty and differ by their
  trailing text; agent frontmatter stages.
-/

theorem toolNoSpBody_ne_nil (nm : Str) : toolNoSpBody nm ≠ [] := by
  rw [toolNoSpBody, show chars "# " = ['#', ' '] from rfl]
  simp

theorem noContentBody_ne_nil (nm : Str) : noContentBody nm ≠ [] := by
  rw [noContentBody, show chars "# " = ['#', ' '] from rfl]
  simp

theorem noContent_ne_noSp (a b : Str) : noContentBody a ≠ toolNoSpBody b := by
  intro h
  have h' := congrArg List.getLast? h
  rw [noContentBody, toolNoSpBody] at h'
  rw [List.getLast?_append_of_ne_nil _ (show chars "\n\n(No content)" ≠ [] by decide)] at h'
  rw [List.getLast?_append_of_ne_nil _
    (show chars "\n\nUtility tool with no system prompt." ≠ [] by decide)] at h'
  exact absurd h' (by decide)

theorem agentFM1_get_ne (fm0 : Fields) (q : Str) (h : q ≠ typeKey) :
    getF (agentFM1 fm0) q = getF fm0 q := by
  unfold agentFM1
  split
  · exact getF_setF_ne fm0 typeKey q _ (Ne.symm h)
  · rfl

theorem agentFM2_get_ne (fm1 : Fields) (q : Str) (h : q ≠ verKey) :
    getF (agentFM2 fm1) q = getF fm1 q := by
  unfold agentFM2
  split
  · exact getF_setF_ne fm1 verKey q _ (Ne.symm h)
  · rfl

theorem agentFM1_type (fm0 : Fields) :
    getF (agentFM1 fm0) typeKey =
      some ((getF fm0 typeKey).getD (Val.s (chars "agent"))) := by
  rcases hty : getF fm0 typeKey with _ | v
  · simp [agentFM1, hty, getF_setF_self]
  · simp [agentFM1, hty]

theorem agentFM2_ver (fm1 : Fields) :
    getF (agentFM2 fm1) verKey =
      some ((getF fm1 verKey).getD (Val.s (chars "1.0.0"))) := by
  rcases hv : getF fm1 verKey with _ | v
  · simp [agentFM2, hv, getF_setF_self]
  · simp [agentFM2, hv]

/-- Reduction of convert_tool_core when the system prompt is falsy,
and the facts of that branch. -/
theorem branchA_facts (p : Str → Option Fields) (dir : Str) (td fm : Fields)
    (body : Str) (hfal : spTruthy (getF td spKey) = Except.ok none)
    (hok : convert_tool_core p dir td = Except.ok (fm, body)) :
    body ≠ [] ∧ fm = filterSp td := by
  have hred : convert_tool_core p dir td =
      match getF td nameKey with
      | none => Except.ok (filterSp td, toolNoSpBody dir)
      | some (Val.s n0) => Except.ok (filterSp td, toolNoSpBody n0)
      | some _ => Except.error (chars "AttributeError") := by
    unfold convert_tool_core
    rw [hfal]
  rw [hred] at hok
  rcases hnv : getF td nameKey with _ | v <;> rw [hnv] at hok
  · injection hok with h'
    have h1 := congrArg Prod.fst h'
    have h2 := congrArg Prod.snd h'
    dsimp at h1 h2
    exact ⟨by rw [← h2]; exact toolNoSpBody_ne_nil dir, h1.symm⟩
  · cases v with
    | s n0 =>
      injection hok with h'
      have h1 := congrArg Prod.fst h'
      have h2 := congrArg Prod.snd h'
      dsimp at h1 h2
      exact ⟨by rw [← h2]; exact toolNoSpBody_ne_nil n0, h1.symm⟩
    | dict l => exact Except.noConfusion hok
    | arr l => exact Except.noConfusion hok

/-
  Claim theorems.
-/

/-- C4 (corrected): the splitter contract, with the start check applied
to the trimmed text rather than the raw text: when the trimmed text
does not start with the delimiter the result is the empty mapping and
the trimmed full text; when the trimmed text starts with the delimiter
but splitting with at most two splits yields fewer than three segments
the result is the same; otherwise the segment between the first two
delimiters is parsed (a failing parse yields the empty mapping, never
an error) and paired with the trimmed final segment as body. -/
theorem claim4_splitter (p : Str → Option Fields) (content : Str) :
    (List.take 3 (pyStrip content) ≠ threeDash →
      parse_embedded_skill_md p content = ([], pyStrip content))
    ∧ (List.take 3 (pyStrip content) = threeDash →
      (splitDash 2 [] content).length < 3 →
      parse_embedded_skill_md p content = ([], pyStrip content))
    ∧ (∀ a b c2, List.take 3 (pyStrip content) = threeDash →
      splitDash 2 [] content = [a, b, c2] →
      parse_embedded_skill_md p content = ((p (pyStrip b)).getD [], pyStrip c2)) := by
  refine ⟨?_, ?_, ?_⟩
  · intro h
    simp [parse_embedded_skill_md, h]
  · intro h hlen
    simp [parse_embedded_skill_md, h, hlen]
  · intro a b c2 h hparts
    simp [parse_embedded_skill_md, h, hparts]

/-- C4 counterexample: a text with leading whitespace before the
delimiter does not start with the delimiter, yet the splitter does not
return the trimmed full text as body: it splits and returns only the
final segment. -/
theorem claim4_cex :
    List.take 3 (chars " ---a---b") ≠ threeDash
    ∧ parse_embedded_skill_md pFail (chars " ---a---b") = ([], chars "b")
    ∧ pyStrip (chars " ---a---b") ≠ chars "b" :=
  ⟨by decide, rfl, by decide⟩

/-- C4 witness: a delimiter-free text is returned whole, trimmed. -/
theorem claim4_witness :
    parse_embedded_skill_md pFail (chars "hello") = ([], pyStrip (chars "hello")) :=
  (claim4_splitter pFail (chars "hello")).1 (by decide)

/-- C5 (corrected): when the delimiter is present with three segments
and the field segment fails to parse, the splitter returns the empty
mapping, not an error, but the body is the trimmed final segment, not
the whole secondary text. -/
theorem claim5_parse_failure (p : Str → Option Fields) (content a b c2 : Str)
    (hstart : List.take 3 (pyStrip content) = threeDash)
    (hparts : splitDash 2 [] content = [a, b, c2])
    (hfail : p (pyStrip b) = none) :
    parse_embedded_skill_md p content = ([], pyStrip c2) := by
  simp [parse_embedded_skill_md, hstart, hparts, hfail]

/-- C5 counterexample: on a parse failure the body is the final
segment, not the whole trimmed text. -/
theorem claim5_cex :
    parse_embedded_skill_md pFail (chars "---\nbad\n---\nGood body") =
      ([], chars "Good body")
    ∧ pyStrip (chars "---\nbad\n---\nGood body") ≠ chars "Good body" :=
  ⟨rfl, by decide⟩

/-- C5 witness for the amended statement. -/
theorem claim5_witness :
    parse_embedded_skill_md pFail (chars "---\nzz\n---\nBody") =
      ([], pyStrip (chars "\nBody")) :=
  claim5_parse_failure pFail (chars "---\nzz\n---\nBody") (chars "")
    (chars "\nzz\n") (chars "\nBody") (by decide) (by decide) rfl

/-- C1 (corrected): a tool record without system_prompt yields as
frontmatter the whole record copied verbatim (nothing dropped, since
the filtered key is absent, and in particular no type key is added),
and the placeholder body derived from the record name, falling back to
the directory name. -/
theorem claim1_no_sp (p : Str → Option Fields) (dir : Str) (td : Fields)
    (nm : Str) (hsp : getF td spKey = none)
    (hname : getF td nameKey = some (Val.s nm) ∨
      (getF td nameKey = none ∧ nm = dir)) :
    convert_tool_core p dir td = Except.ok (td, toolNoSpBody nm) := by
  have hfil := filterSp_of_none td hsp
  rcases hname with hn | ⟨hn, hnm⟩
  · simp [core_no_sp p dir td hsp, hn, hfil]
  · subst hnm
    simp [core_no_sp p nm td hsp, hn, hfil]

/-- C1 counterexample: a record holding only a name yields frontmatter
holding only that name: there is no type key (and no description or
version either), against the claimed exactly-four-keys frontmatter. -/
theorem claim1_cex :
    convert_tool_core pFail (chars "noop") [(nameKey, Val.s (chars "noop"))] =
      Except.ok ([(nameKey, Val.s (chars "noop"))], toolNoSpBody (chars "noop"))
    ∧ getF [(nameKey, Val.s (chars "noop"))] typeKey = none :=
  ⟨rfl, rfl⟩

/-- C1 witness: the amended statement at a concrete record. -/
theorem claim1_witness :
    convert_tool_core pFail (chars "dir") [(nameKey, Val.s (chars "my-tool"))] =
      Except.ok ([(nameKey, Val.s (chars "my-tool"))],
        chars "# My Tool\n\nUtility tool with no system prompt.") := by
  have h := claim1_no_sp pFail (chars "dir") [(nameKey, Val.s (chars "my-tool"))]
    (chars "my-tool") rfl (Or.inl rfl)
  exact h

/-- C2 (corrected): every document produced by either converter has a
non-empty body; the frontmatter contains type and version for every
agent record and for every tool record with a truthy string system
prompt, but not necessarily in the no-system_prompt tool branch (see
the counterexample). -/
theorem claim2_invariant :
    (∀ (p : Str → Option Fields) (dir : Str) (td fm : Fields) (body : Str),
      convert_tool_core p dir td = Except.ok (fm, body) →
      body ≠ [] ∧
      (∀ s, getF td spKey = some (Val.s s) → s ≠ [] →
        getF fm typeKey = some (Val.s (chars "tool")) ∧ getF fm verKey ≠ none))
    ∧ (∀ (nm : Str) (td fm : Fields) (body : Val),
      convert_agent_core nm td = (fm, body) →
      getF fm typeKey ≠ none ∧ getF fm verKey ≠ none ∧
      (∀ s, body = Val.s s → s ≠ [])) := by
  constructor
  · intro p dir td fm body hok
    rcases hspv : getF td spKey with _ | v
    · have hfal : spTruthy (getF td spKey) = Except.ok none := by rw [hspv]; rfl
      have hA := branchA_facts p dir td fm body hfal hok
      refine ⟨hA.1, ?_⟩
      intro s hs _
      cases hs
    · cases v with
      | s s0 =>
        by_cases h0 : s0 = []
        · subst h0
          have hfal : spTruthy (getF td spKey) = Except.ok none := by
            rw [hspv]; rfl
          have hA := branchA_facts p dir td fm body hfal hok
          refine ⟨hA.1, ?_⟩
          intro s hs hsne
          injection hs with hs'
          injection hs' with hs''
          exact absurd hs''.symm hsne
        · rw [core_sp p dir td s0 hspv h0] at hok
          rcases hbb : buildToolFM dir td (parse_embedded_skill_md p s0).1
            with e | fm4 <;> rw [hbb] at hok
          · exact Except.noConfusion hok
          · injection hok with h'
            have hfm := congrArg Prod.fst h'
            have hbody := congrArg Prod.snd h'
            dsimp at hfm hbody
            subst hfm
            refine ⟨?_, ?_⟩
            · rw [← hbody]
              by_cases hbe : (parse_embedded_skill_md p s0).2 = []
              · rw [if_pos hbe]
                exact noContentBody_ne_nil dir
              · rw [if_neg hbe]
                exact hbe
            · intro s hs hsne
              have hb := buildToolFM_base dir td _ _ hbb
              refine ⟨hb.2.1, ?_⟩
              rw [hb.2.2.2]
              simp
      | dict l =>
        cases l with
        | nil =>
          have hfal : spTruthy (getF td spKey) = Except.ok none := by
            rw [hspv]; rfl
          have hA := branchA_facts p dir td fm body hfal hok
          refine ⟨hA.1, ?_⟩
          intro s hs _
          injection hs with hs'
          exact Val.noConfusion hs'
        | cons x xs =>
          have herr : convert_tool_core p dir td =
              Except.error (chars "AttributeError") := by
            unfold convert_tool_core
            rw [hspv]
            rfl
          rw [herr] at hok
          exact Except.noConfusion hok
      | arr l =>
        cases l with
        | nil =>
          have hfal : spTruthy (getF td spKey) = Except.ok none := by
            rw [hspv]; rfl
          have hA := branchA_facts p dir td fm body hfal hok
          refine ⟨hA.1, ?_⟩
          intro s hs _
          injection hs with hs'
          exact Val.noConfusion hs'
        | cons x xs =>
          have herr : convert_tool_core p dir td =
              Except.error (chars "AttributeError") := by
            unfold convert_tool_core
            rw [hspv]
            rfl
          rw [herr] at hok
          exact Except.noConfusion hok
  · intro nm td fm body h
    unfold convert_agent_core at h
    injection h with hfm hbody
    subst hfm
    subst hbody
    refine ⟨?_, ?_, ?_⟩
    · rw [agentFM2_get_ne _ _ neTV, agentFM1_type]
      simp
    · rw [agentFM2_ver]
      simp
    · intro s hbs
      unfold agentBody at hbs
      rcases hsp : getF td spKey with _ | v <;> rw [hsp] at hbs
      · have hbs2 : Val.s (noContentBody nm) = Val.s s := hbs
        injection hbs2 with h'
        rw [← h']
        exact noContentBody_ne_nil nm
      · have hbs2 : (if vTruthy v = true then v
            else Val.s (noContentBody nm)) = Val.s s := hbs
        by_cases htv : vTruthy v = true
        · rw [if_pos htv] at hbs2
          subst hbs2
          intro hcon
          subst hcon
          simp [vTruthy] at htv
        · rw [if_neg htv] at hbs2
          injection hbs2 with h'
          rw [← h']
          exact noContentBody_ne_nil nm

/-- C2 counterexample: a tool record without system_prompt and without
type or version fields produces a document whose frontmatter has
neither type nor version. -/
theorem claim2_cex :
    convert_tool_core pFail (chars "dir") [(descKey, Val.s (chars "d"))] =
      Except.ok ([(descKey, Val.s (chars "d"))], toolNoSpBody (chars "dir"))
    ∧ getF [(descKey, Val.s (chars "d"))] typeKey = none
    ∧ getF [(descKey, Val.s (chars "d"))] verKey = none :=
  ⟨rfl, rfl, rfl⟩

/-- C2 witness: the amended statement at a concrete tool record with a
system prompt. -/
theorem claim2_witness :
    chars "Hello" ≠ ([] : Str)
    ∧ getF [(nameKey, Val.s (chars "t")), (typeKey, Val.s (chars "tool")),
        (descKey, Val.s []), (verKey, Val.s (chars "1.0.0"))] typeKey =
      some (Val.s (chars "tool")) := by
  have h := claim2_invariant.1 pFail (chars "t")
    [(spKey, Val.s (chars "---\nk: v\n---\nHello"))]
    [(nameKey, Val.s (chars "t")), (typeKey, Val.s (chars "tool")),
      (descKey, Val.s []), (verKey, Val.s (chars "1.0.0"))]
    (chars "Hello") rfl
  exact ⟨h.1, (h.2 (chars "---\nk: v\n---\nHello") rfl (by decide)).1⟩

/-- C3 (corrected): in the tool converter branch with a system prompt,
the output name is the record name when present, else the directory
name (the embedded skill frontmatter name is never consulted); type is
the fixed string tool; description is the record value, else the skill
frontmatter value, else empty; version is the record value, else
1.0.0. -/
theorem claim3_fm_fields (p : Str → Option Fields) (dir : Str) (td : Fields)
    (s : Str) (fm : Fields) (body : Str)
    (hsp : getF td spKey = some (Val.s s)) (hs : s ≠ [])
    (hok : convert_tool_core p dir td = Except.ok (fm, body)) :
    getF fm nameKey = some ((getF td nameKey).getD (Val.s dir))
    ∧ getF fm typeKey = some (Val.s (chars "tool"))
    ∧ getF fm descKey = some ((getF td descKey).getD
      ((getF (parse_embedded_skill_md p s).1 descKey).getD (Val.s [])))
    ∧ getF fm verKey = some ((getF td verKey).getD (Val.s (chars "1.0.0"))) := by
  rw [core_sp p dir td s hsp hs] at hok
  rcases hbb : buildToolFM dir td (parse_embedded_skill_md p s).1
    with e | fm4 <;> rw [hbb] at hok
  · exact Except.noConfusion hok
  · injection hok with h'
    have hfm := congrArg Prod.fst h'
    dsimp at hfm
    subst hfm
    exact buildToolFM_base dir td _ _ hbb

/-- C3 counterexample: a record without a name whose embedded skill
frontmatter carries a name still gets the directory name, not the
skill name. -/
theorem claim3_cex :
    (parse_embedded_skill_md pSk (chars "---\nname: sk\n---\nbody")).1 =
      [(nameKey, Val.s (chars "sk"))]
    ∧ convert_tool_core pSk (chars "dir")
        [(spKey, Val.s (chars "---\nname: sk\n---\nbody"))] =
      Except.ok ([(nameKey, Val.s (chars "dir")), (typeKey, Val.s (chars "tool")),
        (descKey, Val.s []), (verKey, Val.s (chars "1.0.0"))], chars "body")
    ∧ chars "dir" ≠ chars "sk" :=
  ⟨rfl, rfl, by decide⟩

/-- C3 witness: the amended statement at a concrete record. -/
theorem claim3_witness :
    getF [(nameKey, Val.s (chars "dir")), (typeKey, Val.s (chars "tool")),
      (descKey, Val.s []), (verKey, Val.s (chars "1.0.0"))] typeKey =
      some (Val.s (chars "tool")) := by
  have h := claim3_fm_fields pSk (chars "dir")
    [(spKey, Val.s (chars "---\nname: sk\n---\nbody"))]
    (chars "---\nname: sk\n---\nbody")
    [(nameKey, Val.s (chars "dir")), (typeKey, Val.s (chars "tool")),
      (descKey, Val.s []), (verKey, Val.s (chars "1.0.0"))]
    (chars "body") rfl (by decide) rfl
  exact h.2.1

/-- C10 (confirmed): when the system prompt is a truthy string and the
split skill body is empty, the body is the no-content placeholder built
from the directory name (even when the record has a name field, since
the directory name is universally quantified here and the witness record
carries a different name), and it differs from the placeholder of the
no-system_prompt branch for every name. -/
theorem claim10_placeholder (p : Str → Option Fields) (dir : Str) (td : Fields)
    (s : Str) (fm : Fields) (body : Str)
    (hsp : getF td spKey = some (Val.s s)) (hs : s ≠ [])
    (hempty : (parse_embedded_skill_md p s).2 = [])
    (hok : convert_tool_core p dir td = Except.ok (fm, body)) :
    body = noContentBody dir ∧ (∀ nm, body ≠ toolNoSpBody nm) := by
  rw [core_sp p dir td s hsp hs] at hok
  rcases hbb : buildToolFM dir td (parse_embedded_skill_md p s).1
    with e | fm4 <;> rw [hbb] at hok
  · exact Except.noConfusion hok
  · injection hok with h'
    have hbody := congrArg Prod.snd h'
    dsimp at hbody
    rw [if_pos hempty] at hbody
    refine ⟨hbody.symm, ?_⟩
    intro nm
    rw [← hbody]
    exact noContent_ne_noSp dir nm

/-- C10 witness: a record carrying a name field whose skill document
has an empty body below its frontmatter; the body comes from the
directory name. -/
theorem claim10_witness :
    chars "# Dir\n\n(No content)" = noContentBody (chars "dir")
    ∧ chars "# Dir\n\n(No content)" ≠ toolNoSpBody (chars "dir") := by
  have h := claim10_placeholder pFail (chars "dir")
    [(nameKey, Val.s (chars "x")),
      (spKey, Val.s (chars "---\nk: v\n---\n \n"))]
    (chars "---\nk: v\n---\n \n")
    [(nameKey, Val.s (chars "x")), (typeKey, Val.s (chars "tool")),
      (descKey, Val.s []), (verKey, Val.s (chars "1.0.0"))]
    (chars "# Dir\n\n(No content)") rfl (by decide) rfl rfl
  exact ⟨h.1, h.2 (chars "dir")⟩

/-- C8 (confirmed): the agent converter frontmatter never contains a
system_prompt key, every field other than type and version is copied
verbatim, type and version are filled only when absent, and the body is
exactly the system prompt value when truthy, else the generated
placeholder. -/
theorem claim8_agent (nm : Str) (td fm : Fields) (body : Val)
    (h : convert_agent_core nm td = (fm, body)) :
    getF fm spKey = none
    ∧ (∀ k, k ≠ typeKey → k ≠ verKey → k ≠ spKey → getF fm k = getF td k)
    ∧ getF fm typeKey = some ((getF td typeKey).getD (Val.s (chars "agent")))
    ∧ getF fm verKey = some ((getF td verKey).getD (Val.s (chars "1.0.0")))
    ∧ body = agentBody nm (getF td spKey) := by
  unfold convert_agent_core at h
  injection h with hfm hbody
  subst hfm
  subst hbody
  refine ⟨?_, ?_, ?_, ?_, rfl⟩
  · rw [agentFM2_get_ne _ _ (by decide), agentFM1_get_ne _ _ (by decide)]
    exact getF_eraseF_self td spKey
  · intro k hk1 hk2 hk3
    rw [agentFM2_get_ne _ _ hk2, agentFM1_get_ne _ _ hk1,
      getF_eraseF_ne td spKey k (Ne.symm hk3)]
  · rw [agentFM2_get_ne _ _ neTV, agentFM1_type,
      getF_eraseF_ne td spKey typeKey (by decide)]
  · rw [agentFM2_ver, agentFM1_get_ne _ _ (fun he => neTV he.symm),
      getF_eraseF_ne td spKey verKey (by decide)]

/-- C8 witness: a concrete agent record with only a system prompt. -/
theorem claim8_witness :
    getF [(typeKey, Val.s (chars "agent")), (verKey, Val.s (chars "1.0.0"))]
      spKey = none :=
  (claim8_agent (chars "bot") [(spKey, Val.s (chars "Hi"))]
    [(typeKey, Val.s (chars "agent")), (verKey, Val.s (chars "1.0.0"))]
    (Val.s (chars "Hi")) rfl).1

/-- C7 (confirmed): the embedding step skips, with the fixed message,
exactly when an implementation field is present whose str() form does
not contain the skill_directory marker; in every other case it updates
the record, setting system_prompt to the full raw skill text and
overwriting implementation with the fixed embedded marker mapping. -/
theorem claim7_embed (sc : Str) (td : Fields) :
    ((∃ m, embed_system_prompt sc td = EmbedResult.skipped m) ↔
      (∃ impl, getF td implKey = some impl ∧
        hasSub (chars "skill_directory") (pyStr impl) = false))
    ∧ (∀ r, embed_system_prompt sc td = EmbedResult.updated r →
        getF r spKey = some (Val.s sc) ∧ getF r implKey = some embeddedImplVal)
    ∧ (∀ m, embed_system_prompt sc td = EmbedResult.skipped m →
        m = chars "No skill_directory reference") := by
  have hupd : ∀ r,
      setF (setF td spKey (Val.s sc)) implKey embeddedImplVal = r →
      getF r spKey = some (Val.s sc) ∧ getF r implKey = some embeddedImplVal := by
    intro r hr
    subst hr
    constructor
    · rw [getF_setF_ne _ implKey spKey _ (by decide)]
      exact getF_setF_self _ _ _
    · exact getF_setF_self _ _ _
  rcases him : getF td implKey with _ | impl
  · simp only [embed_system_prompt, him]
    refine ⟨⟨?_, ?_⟩, ?_, ?_⟩
    · rintro ⟨m, hm⟩
      exact EmbedResult.noConfusion hm
    · rintro ⟨i, hi, _⟩
      exact Option.noConfusion hi
    · intro r hr
      injection hr with hr'
      exact hupd r hr'
    · intro m hm
      exact EmbedResult.noConfusion hm
  · cases hsb : hasSub (chars "skill_directory") (pyStr impl) with
    | false =>
      simp only [embed_system_prompt, him, hsb, Bool.false_eq_true, if_false]
      refine ⟨⟨?_, ?_⟩, ?_, ?_⟩
      · intro _
        exact ⟨impl, rfl, hsb⟩
      · intro _
        exact ⟨chars "No skill_directory reference", rfl⟩
      · intro r hr
        exact EmbedResult.noConfusion hr
      · intro m hm
        injection hm with h'
        exact h'.symm
    | true =>
      simp only [embed_system_prompt, him, hsb, if_true]
      refine ⟨⟨?_, ?_⟩, ?_, ?_⟩
      · rintro ⟨m, hm⟩
        exact EmbedResult.noConfusion hm
      · rintro ⟨i, hi, hfa⟩
        injection hi with hi'
        subst hi'
        rw [hsb] at hfa
        exact Bool.noConfusion hfa
      · intro r hr
        injection hr with hr'
        exact hupd r hr'
      · intro m hm
        exact EmbedResult.noConfusion hm

/-- C7 witness: embedding into a record with no implementation field
sets both fields. -/
theorem claim7_witness :
    getF [(spKey, Val.s (chars "SKILL")), (implKey, embeddedImplVal)] spKey =
      some (Val.s (chars "SKILL"))
    ∧ getF [(spKey, Val.s (chars "SKILL")), (implKey, embeddedImplVal)] implKey =
      some embeddedImplVal :=
  (claim7_embed (chars "SKILL") []).2.1
    [(spKey, Val.s (chars "SKILL")), (implKey, embeddedImplVal)] rfl

/-- C9 (corrected): in the embed driver every item, including one that
raises, is classified into exactly one count and processing continues
(the counts always sum to the number of items); in the convert driver a
returned failure pair is classified and the loop continues, a read
failure is such a pair, but a raised exception (for instance a tool
definition that loads as a non-mapping) aborts the whole batch. -/
theorem claim9_drivers :
    (∀ steps : List CallResult,
      (embedLoop steps).1 + (embedLoop steps).2.1 + (embedLoop steps).2.2 =
        steps.length)
    ∧ (∀ (b : Bool) (m : Str) (rest : List CallResult),
      (convertLoop (CallResult.ret b m :: rest)).isSome =
        (convertLoop rest).isSome)
    ∧ (∀ (m : Str) (rest : List CallResult),
      convertLoop (CallResult.exn m :: rest) = none)
    ∧ (∀ (p : Str → Option Fields) (nm : Str) (w : Bool),
      convert_tool_yaml_to_md p nm ReadOutcome.ioError w =
        CallResult.ret false (chars "Failed to read YAML"))
    ∧ (∀ (p : Str → Option Fields) (nm : Str) (w : Bool),
      convert_tool_yaml_to_md p nm (ReadOutcome.value (Val.arr [])) w =
        CallResult.exn (chars "AttributeError")) := by
  refine ⟨?_, ?_, ?_, ?_, ?_⟩
  · intro steps
    induction steps with
    | nil => rfl
    | cons s rest ih =>
      cases s with
      | ret ok msg =>
        cases ok <;> simp [embedLoop] <;> omega
      | exn msg =>
        simp [embedLoop]
        omega
  · intro b m rest
    cases b <;> simp [convertLoop]
  · intro m rest
    rfl
  · intro p nm w
    rfl
  · intro p nm w
    rfl

/-- C9 counterexample: an item whose tool definition loads as a list
raises; in the convert driver the loop result is none (the batch
aborts, the following successful item is never counted), while the
embed driver counts an exception as an error and continues to the next
item. -/
theorem claim9_cex :
    convert_tool_yaml_to_md pFail (chars "t1")
      (ReadOutcome.value (Val.arr [Val.s (chars "x")])) true =
      CallResult.exn (chars "AttributeError")
    ∧ convertLoop [CallResult.exn (chars "AttributeError"),
        CallResult.ret true (chars "Converted to tool.md")] = none
    ∧ embedLoop [CallResult.exn (chars "AttributeError"),
        CallResult.ret true (chars "Updated")] = (1, 0, 1) :=
  ⟨rfl, rfl, rfl⟩

/-- C6 (corrected): round-trip of a serialized frontmatter+body
document through the splitter holds when the serialized field block
contains no delimiter occurrence (including at its boundary) and the
field parser inverts the dumped block modulo stripping, provided the
body is already stripped on both sides; the counterexample shows a
converter-produced document with a whitespace-padded body does not
round-trip, because the splitter strips the body. -/
theorem claim6_roundtrip (p : Str → Option Fields) (D B : Str) (fm : Fields)
    (hD : hasSub threeDash (('\n' :: D) ++ ['-', '-']) = false)
    (hp : p (pyStrip D) = some fm)
    (hB1 : List.dropWhile isPySpace B = B)
    (hB2 : List.dropWhile isPySpace B.reverse = B.reverse) :
    parse_embedded_skill_md p (writeDoc D B) = (fm, B) := by
  have hW : writeDoc D B =
      threeDash ++ (('\n' :: D) ++
        (threeDash ++ ('\n' :: '\n' :: (B ++ ['\n'])))) := by
    rw [writeDoc]
    simp [List.append_assoc]
  have h1 : splitDash 2 []
      (threeDash ++ (('\n' :: D) ++
        (threeDash ++ ('\n' :: '\n' :: (B ++ ['\n']))))) =
      [] :: splitDash 1 []
        (('\n' :: D) ++ (threeDash ++ ('\n' :: '\n' :: (B ++ ['\n'])))) := by
    have h := splitDash_chunk 1 []
      (('\n' :: D) ++ (threeDash ++ ('\n' :: '\n' :: (B ++ ['\n'])))) []
      (by decide)
    simpa using h
  have h2 : splitDash 1 []
      (('\n' :: D) ++ (threeDash ++ ('\n' :: '\n' :: (B ++ ['\n'])))) =
      ('\n' :: D) :: splitDash 0 [] ('\n' :: '\n' :: (B ++ ['\n'])) := by
    have h := splitDash_chunk 0 ('\n' :: D) ('\n' :: '\n' :: (B ++ ['\n'])) [] hD
    simpa using h
  have h3 : splitDash 0 [] ('\n' :: '\n' :: (B ++ ['\n'])) =
      [('\n' :: '\n' :: (B ++ ['\n']))] := by
    simpa using splitDash_zero ('\n' :: '\n' :: (B ++ ['\n'])) []
  have hsplit : splitDash 2 [] (writeDoc D B) =
      [[], '\n' :: D, '\n' :: '\n' :: (B ++ ['\n'])] := by
    rw [hW, h1, h2, h3]
  have hstart : List.take 3 (pyStrip (writeDoc D B)) = threeDash := by
    rw [hW]
    exact take3_pyStrip_dash _
  have hb2 : pyStrip ('\n' :: '\n' :: (B ++ ['\n'])) = B :=
    strip_padded B hB1 hB2
  have hp2 : p (pyStrip ('\n' :: D)) = some fm := by
    rw [pyStrip_nl]
    exact hp
  unfold parse_embedded_skill_md
  rw [if_pos hstart]
  simp [hsplit, hp2, hb2]

/-- C6 counterexample: an agent record already carrying type and
version (so no defaulting applies) with a whitespace-padded system
prompt produces a document whose re-split body is stripped and so
differs from the produced body. -/
theorem claim6_cex :
    convert_agent_core (chars "a")
      [(typeKey, Val.s (chars "agent")), (verKey, Val.s (chars "1.0.0")),
        (spKey, Val.s (chars " x "))] =
      ([(typeKey, Val.s (chars "agent")), (verKey, Val.s (chars "1.0.0"))],
        Val.s (chars " x "))
    ∧ (parse_embedded_skill_md pInv
        (writeDoc (chars "type: agent\nversion: 1.0.0\n") (chars " x "))).1 =
      [(typeKey, Val.s (chars "agent")), (verKey, Val.s (chars "1.0.0"))]
    ∧ (parse_embedded_skill_md pInv
        (writeDoc (chars "type: agent\nversion: 1.0.0\n") (chars " x "))).2 =
      chars "x"
    ∧ chars "x" ≠ chars " x " :=
  ⟨rfl, rfl, rfl, by decide⟩

/-- C6 witness: with a stripped body the round-trip reproduces both
the field set and the body. -/
theorem claim6_witness :
    parse_embedded_skill_md pInv
      (writeDoc (chars "type: agent\nversion: 1.0.0\n") (chars "Body")) =
      ([(typeKey, Val.s (chars "agent")), (verKey, Val.s (chars "1.0.0"))],
        chars "Body") :=
  claim6_roundtrip pInv (chars "type: agent\nversion: 1.0.0\n") (chars "Body")
    [(typeKey, Val.s (chars "agent")), (verKey, Val.s (chars "1.0.0"))]
    (by decide) rfl (by decide) (by decide)
